import Mathlib

/-!
Verification development for pam_session_timelimit.

The definitions below are a shallow embedding of src/pam_session_timelimit.c.
C byte strings are modelled as `List Nat` (one Nat per byte, values 0..255;
the terminating NUL is implicit: the byte at an index past the end of the
list is the terminator).  Machine integers are modelled as Nat/Int
with explicit reduction modulo 2^64 where the C code can overflow.  Reads
from regular files are assumed to deliver the full requested byte count
except at end of file.  An out-of-bounds buffer access in the C code is
modelled by returning `none`.
-/

namespace PamSessionTimelimit

/-- PAM return codes used by the module (subset of the PAM constants). -/
inductive Rc where
  | success
  | ignore
  | permDenied
  | systemErr
  | sessionErr
  | bufErr
  deriving DecidableEq

/-- C isspace in the default locale: space (32) and 9..13 (tab, newline,
vertical tab, form feed, carriage return). -/
def isspaceB (b : Nat) : Bool :=
  b == 32 || (9 ≤ b && b ≤ 13)

/-- strncmp(a, b, n) == 0.  Both arguments are read as C byte strings: the
byte at an index past the end of the list is the terminating NUL (0).
Comparison stops at the first differing byte, at a NUL, or after n bytes. -/
def strncmpEq : List Nat → List Nat → Nat → Bool
  | _, _, 0 => true
  | a, b, n + 1 =>
    let x := a.headD 0
    let y := b.headD 0
    if x = y then
      if x = 0 then true else strncmpEq a.tail b.tail n
    else false

/-- strcmp(a, b) == 0 for C byte strings (implicit NUL terminator). -/
def strcmpEq : List Nat → List Nat → Bool
  | [], b => b.headD 0 == 0
  | x :: a, b =>
    if x = b.headD 0 then
      (if x = 0 then true else strcmpEq a b.tail)
    else false

/-! ### parse_config_line

The C code receives a 1024-byte buffer filled by fgets.  We model the line
as the list of its bytes up to (excluding) the terminating NUL, so
`line.length` is strlen(line).  The trailing-whitespace loop
`while (isspace(line[length-1])) line[--length] = 0;` computes its index in
size_t arithmetic: once length reaches 0 the index underflows to 2^64-1,
far outside the 1024-byte buffer.  The embedding signals that out-of-bounds
access by returning `none`. -/

/-- One step of the trailing-whitespace loop, on the reversed remaining
content.  Reaching the empty list means length has reached 0 and the next
index computation underflows: out-of-bounds, `none`. -/
def stripWSRev : List Nat → Option (List Nat)
  | [] => none
  | b :: rest => if isspaceB b then stripWSRev rest else some (b :: rest)

/-- Embedding of the loop eating trailing whitespace (see `stripWSRev`). -/
def eatTrailingWS (l : List Nat) : Option (List Nat) :=
  (stripWSRev l.reverse).map List.reverse

/-- strip comments: everything from the first '#' (35) on is cut off. -/
def stripComment (l : List Nat) : List Nat :=
  l.takeWhile (fun b => b ≠ 35)

/-- Result of parse_config_line: PAM_BUF_ERR for an unterminated overlong
line, PAM_SYSTEM_ERR for a malformed line, PAM_SUCCESS either skipping a
blank line or producing a (user, limit) pair. -/
inductive LineParse where
  | tooLong
  | malformed
  | blank
  | entry (user limit : List Nat)
  deriving DecidableEq

/-- Embedding of parse_config_line over the fgets buffer, whose writes it
tracks exactly.  The input is the line as fgets delivered it (bytes up to
and including the newline when one fits); fgets wrote one more NUL after
it.  The code overwrites the newline and the first '#' with NUL in place,
so the bytes of a stripped comment stay in the buffer after that NUL.
When the username scan finds no whitespace it exits with i = length + 1
and `line += i` lands one byte past the NUL terminator: that byte is the
first byte of the stale comment if the comment NUL cut the string with no
trailing whitespace stripped (the code then returns the comment tail as
the limit), and one of the NULs written over the newline, over trailing
whitespace, or by fgets itself in every other case (missing limit,
PAM_SYSTEM_ERR).  `none` models an out-of-bounds buffer access (undefined
behavior): reading line[strlen-1] of an empty string, or the
trailing-whitespace loop underflowing its size_t index on a line whose
content after newline and comment removal is all whitespace. -/
def parse_config_line (line : List Nat) : Option LineParse :=
  match line.getLast? with
  | none => none
  | some c =>
    if c ≠ 10 then some .tooLong
    else
      let content := line.dropLast
      let stripped := stripComment content
      match eatTrailingWS stripped with
      | none => none
      | some l3 =>
        if l3.length = 0 then some .blank
        else
          let j := (l3.takeWhile (fun b => !isspaceB b)).length
          if j = 0 then some .malformed
          else if j < l3.length then
            let rest := (l3.drop j).dropWhile isspaceB
            if rest.headD 0 = 0 then some .malformed
            else some (.entry (l3.take j) rest)
          else
            if l3.length = stripped.length ∧ stripped.length < content.length then
              let rest := (content.drop (stripped.length + 1)).dropWhile isspaceB
              if rest.headD 0 = 0 then some .malformed
              else some (.entry l3 rest)
            else some .malformed

/-- Result of parse_config_file: PAM_IGNORE, PAM_PERM_DENIED, or a user
table of (user, limit) pairs in file order. -/
inductive ConfigResult where
  | ignore
  | denied
  | table (t : List (List Nat × List Nat))
  deriving DecidableEq

/-- The fgets loop of parse_config_file over the file split into lines,
accumulating entries in file order; any malformed line rejects the whole
file (PAM_PERM_DENIED), zero collected entries give PAM_IGNORE. -/
def parseLines : List (List Nat) → List (List Nat × List Nat) → Option ConfigResult
  | [], acc => some (if acc.isEmpty then .ignore else .table acc)
  | l :: rest, acc =>
    match parse_config_line l with
    | none => none
    | some .tooLong => some .denied
    | some .malformed => some .denied
    | some .blank => parseLines rest acc
    | some (.entry u v) => parseLines rest (acc ++ [(u, v)])

/-- Embedding of parse_config_file; the input is `none` when stat fails
(config file absent), otherwise the file content split into fgets lines. -/
def parse_config_file : Option (List (List Nat)) → Option ConfigResult
  | none => some .ignore
  | some lines => parseLines lines []

/-- The user-table scan of pam_sm_acct_mgmt: walks the whole table in file
order and overwrites the chosen limit at every matching entry (no break). -/
def lookupLoop (u : List Nat) (acc : Option (List Nat)) :
    List (List Nat × List Nat) → Option (List Nat)
  | [] => acc
  | e :: rest => lookupLoop u (if strcmpEq e.1 u then some e.2 else acc) rest

/-- Written from the words of the spec, for comparison with `lookupLoop`:
the limit text of the last occurrence of the identity in file order. -/
def lastOccurrenceLimit (u : List Nat) (t : List (List Nat × List Nat)) :
    Option (List Nat) :=
  (t.reverse.find? (fun e => strcmpEq e.1 u)).map Prod.snd

/-! ### The quota ledger file

A record slot is NAME_MAX+1 = 256 bytes of fixed-width username field,
followed by sizeof(time_t) = 8 bytes of day marker and sizeof(usec_t) = 8
bytes of usage counter, both stored in native (little-endian) byte order.
The file starts with the 12-byte header "Format: " plus uint32 1. -/

/-- NAME_MAX + 1, the width of the username field of a ledger record. -/
def NAME_W : Nat := 256

/-- Size in bytes of one ledger record slot (256 + 8 + 8). -/
def SLOT : Nat := NAME_W + 8 + 8

/-- Little-endian encoding of a value into k bytes (the native in-memory
representation the C code writes with memcpy / pointer stores). -/
def encodeLE : Nat → Nat → List Nat
  | 0, _ => []
  | k + 1, v => v % 256 :: encodeLE k (v / 256)

/-- Little-endian decoding of a byte list (bytes are reduced mod 256). -/
def decodeLE : List Nat → Nat
  | [] => 0
  | b :: rest => b % 256 + 256 * decodeLE rest

/-- memcpy of a usec_t (8 bytes, unsigned) out of a buffer. -/
def decodeU64 (bs : List Nat) : Nat :=
  decodeLE (bs.take 8)

/-- memcpy of a time_t (8 bytes, signed, two-complement) out of a buffer. -/
def decodeI64 (bs : List Nat) : Int :=
  let n := decodeLE (bs.take 8)
  if n < 2 ^ 63 then (n : Int) else (n : Int) - 2 ^ 64

/-- In-memory representation of a time_t value (two-complement). -/
def encodeI64 (z : Int) : List Nat :=
  encodeLE 8 (z % 2 ^ 64).toNat

/-- strncpy(buf, username, 256) into a zeroed buffer: copy the bytes up to
the first NUL, at most 256 of them; the rest of the field stays zero. -/
def nameField (u : List Nat) : List Nat :=
  let c := (u.takeWhile (fun b => b ≠ 0)).take NAME_W
  c ++ List.replicate (NAME_W - c.length) 0

/-- The record slot set_used_time_for_user writes: fixed-width username,
day marker time_today(), usage counter. -/
def mkRecord (u : List Nat) (day : Int) (used : Nat) : List Nat :=
  nameField u ++ encodeI64 day ++ encodeLE 8 used

/-- The read loop of get_used_time_for_user over the record area (the file
content after the 12-byte header): reads SLOT-byte chunks; on the first
chunk whose username field strncmp-matches, a day marker older than today
means the record does not count (0), otherwise the stored counter is
returned; a trailing partial chunk is never examined; no match gives 0.
Structural recursion on a fuel argument (one unit per chunk suffices). -/
def scanGetAux : Nat → Int → List Nat → List Nat → Nat
  | 0, _, _, _ => 0
  | fuel + 1, today, u, data =>
    if SLOT ≤ data.length then
      if strncmpEq u (data.take SLOT) NAME_W then
        if decodeI64 ((data.take SLOT).drop NAME_W) < today then 0
        else decodeU64 ((data.take SLOT).drop (NAME_W + 8))
      else scanGetAux fuel today u (data.drop SLOT)
    else 0

/-- get_used_time_for_user record scan (see `scanGetAux`). -/
def scanGet (today : Int) (u : List Nat) (data : List Nat) : Nat :=
  scanGetAux data.length today u data

/-- The read loop of set_used_time_for_user: index of the first SLOT-byte
chunk whose username field strncmp-matches, `none` when the scan reaches
end of file without a match. -/
def scanFindAux : Nat → List Nat → List Nat → Option Nat
  | 0, _, _ => none
  | fuel + 1, u, data =>
    if SLOT ≤ data.length then
      if strncmpEq u (data.take SLOT) NAME_W then some 0
      else (scanFindAux fuel u (data.drop SLOT)).map (· + 1)
    else none

/-- set_used_time_for_user record scan (see `scanFindAux`). -/
def scanFind (u : List Nat) (data : List Nat) : Option Nat :=
  scanFindAux data.length u data

/-- The write step of set_used_time_for_user on the record area: when the
scan found chunk k, lseek back one slot and overwrite it in place; when it
reached end of file, the record is written at the current offset, which is
the end of the file (after any trailing partial chunk). -/
def setBytes (today : Int) (u : List Nat) (used : Nat) (data : List Nat) :
    List Nat :=
  match scanFind u data with
  | some k => data.take (k * SLOT) ++ mkRecord u today used ++ data.drop ((k + 1) * SLOT)
  | none => data ++ mkRecord u today used

/-- The 12-byte statefile header: "Format: " followed by uint32 1 in native
(little-endian) byte order. -/
def headerBytes : List Nat := [70, 111, 114, 109, 97, 116, 58, 32, 1, 0, 0, 0]

/-- open_state_path: `none` on the outside models an absent file, which is
created holding just the header; an existing file must begin with the
recognized 12-byte header, otherwise the open fails (`none` result, which
the callers turn into PAM_SYSTEM_ERR). -/
def ledgerOpen : Option (List Nat) → Option (List Nat)
  | none => some headerBytes
  | some bs => if bs.take 12 = headerBytes then some bs else none

/-- Embedding of get_used_time_for_user: opens the statefile (creating it
when absent), scans the record area, and returns the used time together
with the file contents after the call (the read loop never writes). -/
def get_used_time_for_user (today : Int) (u : List Nat)
    (file : Option (List Nat)) : Option (Nat × List Nat) :=
  (ledgerOpen file).map (fun bs => (scanGet today u (bs.drop 12), bs))

/-- Embedding of set_used_time_for_user: opens the statefile (creating it
when absent) and rewrites or appends the record slot for u. -/
def set_used_time_for_user (today : Int) (u : List Nat) (used : Nat)
    (file : Option (List Nat)) : Option (List Nat) :=
  (ledgerOpen file).map (fun bs => bs.take 12 ++ setBytes today u used (bs.drop 12))

/-! ### The saturating accumulation of pam_sm_close_session -/

/-- usec_t infinity: UINT64_MAX, the largest representable duration. -/
def USEC_INFINITY : Nat := 2 ^ 64 - 1

/-- Microseconds per second. -/
def USEC_PER_SEC : Nat := 1000000

/-- Lines 495-498 of pam_session_timelimit.c: add the elapsed session time
to the recorded used time, saturating at USEC_INFINITY instead of letting
the uint64 addition wrap. -/
def accumulate (used elapsed : Nat) : Nat :=
  if USEC_INFINITY - used < elapsed then USEC_INFINITY else elapsed + used

/-! ### Module arguments -/

/-- Byte string "path=". -/
def pathOptTag : List Nat := [112, 97, 116, 104, 61]

/-- Byte string "statepath=". -/
def statepathOptTag : List Nat := [115, 116, 97, 116, 101, 112, 97, 116, 104, 61]

/-- The option loop of pam_sm_acct_mgmt: later occurrences override earlier
ones; the first argument matching neither path= nor statepath= aborts the
loop (`none`, turned into PAM_PERM_DENIED). -/
def parseAcctArgs : List (List Nat) → Option (List Nat) → Option (List Nat) →
    Option (Option (List Nat) × Option (List Nat))
  | [], p, sp => some (p, sp)
  | a :: rest, p, sp =>
    if strncmpEq a pathOptTag 5 then parseAcctArgs rest (some (a.drop 5)) sp
    else if strncmpEq a statepathOptTag 10 then parseAcctArgs rest p (some (a.drop 10))
    else none

/-- The option loop of pam_sm_close_session: only statepath= is recognized;
any other argument aborts the loop (`none`, turned into PAM_SYSTEM_ERR). -/
def parseCloseArgs : List (List Nat) → Option (List Nat) → Option (Option (List Nat))
  | [], sp => some sp
  | a :: rest, sp =>
    if strncmpEq a statepathOptTag 10 then parseCloseArgs rest (some (a.drop 10))
    else none

/-! ### The entry points

The external collaborators are parameters of the embedding: the time-span
codec (parse_time and format_timespan from time-util.c, which the spec
excludes as an external component) and the framework per-session store
(pam_set_data, whose acceptance is the boolean setDataOk).  The config path
and state path select files; the embedding is given the contents of the
selected files directly (`none` models an absent file). -/

/-- External collaborators of pam_sm_acct_mgmt. -/
structure AcctEnv where
  parseTime : List Nat → Option Nat
  formatTimespan : Nat → Option (List Nat)
  setDataOk : Bool

/-- Inputs of one pam_sm_acct_mgmt invocation. -/
structure AcctInput where
  args : List (List Nat)
  username : Option (List Nat)
  config : Option (List (List Nat))
  file : Option (List Nat)
  today : Int

/-- Result of pam_sm_acct_mgmt: the return code, the value published under
the per-session key "systemd.runtime_max_sec" (none when nothing was
published), and the ledger file contents after the call. -/
structure AcctOutcome where
  rc : Rc
  published : Option (List Nat)
  file : Option (List Nat)
  deriving DecidableEq

/-- Embedding of pam_sm_acct_mgmt.  `none` models undefined behavior
reached while parsing the config file.  A failing pam_get_item is not
modelled (the module returns that error code unchanged); username `none`
is the NULL-username check. -/
def pam_sm_acct_mgmt (env : AcctEnv) (inp : AcctInput) : Option AcctOutcome :=
  match parseAcctArgs inp.args none none with
  | none => some ⟨.permDenied, none, inp.file⟩
  | some _ =>
    match inp.username with
    | none => some ⟨.permDenied, none, inp.file⟩
    | some uname =>
      match parse_config_file inp.config with
      | none => none
      | some .ignore => some ⟨.ignore, none, inp.file⟩
      | some .denied => some ⟨.permDenied, none, inp.file⟩
      | some (.table t) =>
        match lookupLoop uname none t with
        | none => some ⟨.ignore, none, inp.file⟩
        | some limitText =>
          match env.parseTime limitText with
          | none => some ⟨.permDenied, none, inp.file⟩
          | some timeval =>
            match get_used_time_for_user inp.today uname inp.file with
            | none => some ⟨.permDenied, none, inp.file⟩
            | some (used, bs) =>
              if timeval ≤ used then some ⟨.permDenied, none, some bs⟩
              else
                match env.formatTimespan (timeval - used) with
                | none => some ⟨.permDenied, none, some bs⟩
                | some txt =>
                  if env.setDataOk then some ⟨.success, some txt, some bs⟩
                  else some ⟨.permDenied, none, some bs⟩

/-- Inputs of one pam_sm_close_session invocation.  published is the value
stored under "systemd.runtime_max_sec" by the admission check, start the
value stored under "timelimit.session_start" by pam_sm_open_session. -/
structure CloseInput where
  published : Option (List Nat)
  start : Option Int
  endTime : Int
  args : List (List Nat)
  username : Option (List Nat)
  file : Option (List Nat)
  today : Int

/-- Result of pam_sm_close_session: return code and ledger file contents
after the call. -/
structure CloseOutcome where
  rc : Rc
  file : Option (List Nat)
  deriving DecidableEq

/-- Embedding of pam_sm_close_session.  With no published limit the call
succeeds before touching the arguments or the ledger.  The elapsed
microseconds are the time_t difference multiplied into usec_t, reduced
mod 2^64 as the uint64 multiplication is. -/
def pam_sm_close_session (inp : CloseInput) : CloseOutcome :=
  match inp.published with
  | none => ⟨.success, inp.file⟩
  | some _ =>
    match parseCloseArgs inp.args none with
    | none => ⟨.systemErr, inp.file⟩
    | some _ =>
      match inp.start with
      | none => ⟨.sessionErr, inp.file⟩
      | some st =>
        if inp.endTime < st then ⟨.sessionErr, inp.file⟩
        else
          let elapsed := ((inp.endTime - st).toNat * USEC_PER_SEC) % 2 ^ 64
          match inp.username with
          | none => ⟨.sessionErr, inp.file⟩
          | some uname =>
            match get_used_time_for_user inp.today uname inp.file with
            | none => ⟨.sessionErr, inp.file⟩
            | some (used, bs) =>
              match set_used_time_for_user inp.today uname
                  (accumulate used elapsed) (some bs) with
              | none => ⟨.sessionErr, inp.file⟩
              | some bs2 => ⟨.success, some bs2⟩

/-! ### time_today -/

/-- struct tm fields filled by localtime_r (tm_year counts from 1900,
tm_yday from 0). -/
structure Tm where
  sec : Int
  min : Int
  hour : Int
  mday : Int
  mon : Int
  year : Int
  yday : Int
  deriving DecidableEq

/-- Semantics of the external libc function timegm: the inverse of gmtime,
given by the POSIX seconds-since-the-Epoch formula (XBD 4.16) applied to a
broken-down time interpreted as universal time.  It consults no timezone
data.  Divisions are C integer divisions (truncation toward zero). -/
def timegm (t : Tm) : Int :=
  t.sec + t.min * 60 + t.hour * 3600 + t.yday * 86400
    + (t.year - 70) * 31536000 + ((t.year - 69).tdiv 4) * 86400
    - ((t.year - 1).tdiv 100) * 86400 + ((t.year + 299).tdiv 400) * 86400

/-- Embedding of time_today: take the local-time decomposition of now
(localtime_r, a parameter because it depends on the system timezone
setting), zero out hours, minutes and seconds, and convert the result with
timegm as if it were universal time; -1 when localtime_r fails. -/
def time_today (localtime : Int → Option Tm) (now : Int) : Int :=
  match localtime now with
  | none => -1
  | some tm => timegm { tm with sec := 0, min := 0, hour := 0 }

/-! ### Supporting lemmas -/

theorem encodeLE_length (k v : Nat) : (encodeLE k v).length = k := by
  induction k generalizing v with
  | zero => rfl
  | succ n ih => simp [encodeLE, ih]

theorem decodeLE_encodeLE (k v : Nat) : decodeLE (encodeLE k v) = v % 256 ^ k := by
  induction k generalizing v with
  | zero => simp [encodeLE, decodeLE, Nat.mod_one]
  | succ n ih =>
    rw [encodeLE, decodeLE, ih, pow_succ', Nat.mod_mul, Nat.mod_mod_of_dvd v dvd_rfl]

theorem decodeU64_encodeLE (v : Nat) (h : v < 2 ^ 64) (rest : List Nat) :
    decodeU64 (encodeLE 8 v ++ rest) = v := by
  rw [decodeU64, List.take_append_of_le_length (by rw [encodeLE_length]),
    List.take_of_length_le (by rw [encodeLE_length]), decodeLE_encodeLE]
  have h8 : (256 : Nat) ^ 8 = 2 ^ 64 := by norm_num
  rw [h8]
  exact Nat.mod_eq_of_lt h

theorem decodeI64_encodeI64 (z : Int) (h1 : -2 ^ 63 ≤ z) (h2 : z < 2 ^ 63)
    (rest : List Nat) : decodeI64 (encodeI64 z ++ rest) = z := by
  have hp : (0 : Int) < 2 ^ 64 := by norm_num
  have hmn : (0 : Int) ≤ z % 2 ^ 64 := Int.emod_nonneg z (by norm_num)
  have hml : z % 2 ^ 64 < 2 ^ 64 := Int.emod_lt_of_pos z hp
  have hcast : ((z % 2 ^ 64).toNat : Int) = z % 2 ^ 64 := Int.toNat_of_nonneg hmn
  have hlt : (z % 2 ^ 64).toNat < 2 ^ 64 := by omega
  rw [decodeI64, encodeI64,
    List.take_append_of_le_length (by rw [encodeLE_length]),
    List.take_of_length_le (by rw [encodeLE_length]), decodeLE_encodeLE,
    show (256 : Nat) ^ 8 = 2 ^ 64 from by norm_num,
    Nat.mod_eq_of_lt hlt]
  have hz : z % 2 ^ 64 = z ∨ z % 2 ^ 64 = z + 2 ^ 64 := by
    have h2p : ((2 : Int) ^ 64) = 2 ^ 63 * 2 := by norm_num
    omega
  split_ifs with hsml <;> omega

theorem nameField_length (u : List Nat) : (nameField u).length = NAME_W := by
  simp only [nameField, List.length_append, List.length_replicate, List.length_take]
  omega

theorem mkRecord_length (u : List Nat) (d : Int) (v : Nat) :
    (mkRecord u d v).length = SLOT := by
  simp [mkRecord, nameField_length, encodeI64, encodeLE_length, SLOT]

theorem strncmpEq_take_replicate (n : Nat) :
    ∀ (u ext : List Nat), (∀ b ∈ u, b ≠ 0) →
      strncmpEq u (u.take n ++ (List.replicate (n - u.length) 0 ++ ext)) n = true := by
  induction n with
  | zero => intro u ext _; rfl
  | succ m ih =>
    intro u ext h
    cases u with
    | nil => simp [strncmpEq, List.replicate_succ]
    | cons c u2 =>
      have hc : c ≠ 0 := h c (by simp)
      simp only [List.take_succ_cons, List.length_cons, Nat.succ_sub_succ,
        List.cons_append, strncmpEq, List.headD_cons, if_pos rfl, if_neg hc,
        List.tail_cons]
      exact ih u2 ext (fun b hb => h b (List.mem_cons_of_mem c hb))

theorem strncmpEq_nameField (u ext : List Nat) (h : ∀ b ∈ u, b ≠ 0) :
    strncmpEq u (nameField u ++ ext) NAME_W = true := by
  have htw : u.takeWhile (fun b => b ≠ 0) = u := by
    rw [List.takeWhile_eq_self_iff]
    intro x hx
    simpa using h x hx
  have hcnt : NAME_W - (u.take NAME_W).length = NAME_W - u.length := by
    simp only [List.length_take]
    omega
  simp only [nameField, htw, hcnt, List.append_assoc]
  exact strncmpEq_take_replicate NAME_W u ext h

theorem scanGetAux_congr (today : Int) (u : List Nat) :
    ∀ (f1 f2 : Nat) (data : List Nat), data.length ≤ f1 → data.length ≤ f2 →
      scanGetAux f1 today u data = scanGetAux f2 today u data := by
  intro f1
  have hS : SLOT = 272 := rfl
  induction f1 with
  | zero =>
    intro f2 data h1 _
    have hd : data = [] := List.eq_nil_of_length_eq_zero (by omega)
    subst hd
    cases f2 <;> simp [scanGetAux, hS]
  | succ n ih =>
    intro f2 data h1 h2
    cases f2 with
    | zero =>
      have hd : data = [] := List.eq_nil_of_length_eq_zero (by omega)
      subst hd
      simp [scanGetAux, hS]
    | succ m =>
      simp only [scanGetAux]
      split_ifs
      · rfl
      · rfl
      · exact ih m (data.drop SLOT) (by simp only [List.length_drop]; omega)
          (by simp only [List.length_drop]; omega)
      · rfl

theorem scanGet_eq (today : Int) (u data : List Nat) :
    scanGet today u data =
      if SLOT ≤ data.length then
        (if strncmpEq u (data.take SLOT) NAME_W then
          (if decodeI64 ((data.take SLOT).drop NAME_W) < today then 0
            else decodeU64 ((data.take SLOT).drop (NAME_W + 8)))
          else scanGet today u (data.drop SLOT))
      else 0 := by
  have hS : SLOT = 272 := rfl
  have key : scanGetAux (data.length + 1) today u data = scanGet today u data := by
    rw [scanGet]
    exact scanGetAux_congr today u (data.length + 1) data.length data (by omega) le_rfl
  rw [← key, scanGetAux]
  split_ifs
  · rfl
  · rfl
  · rw [scanGet]
    exact scanGetAux_congr today u data.length (data.drop SLOT).length (data.drop SLOT)
      (by simp only [List.length_drop]; omega) le_rfl
  · rfl

theorem scanFindAux_congr (u : List Nat) :
    ∀ (f1 f2 : Nat) (data : List Nat), data.length ≤ f1 → data.length ≤ f2 →
      scanFindAux f1 u data = scanFindAux f2 u data := by
  intro f1
  have hS : SLOT = 272 := rfl
  induction f1 with
  | zero =>
    intro f2 data h1 _
    have hd : data = [] := List.eq_nil_of_length_eq_zero (by omega)
    subst hd
    cases f2 <;> simp [scanFindAux, hS]
  | succ n ih =>
    intro f2 data h1 h2
    cases f2 with
    | zero =>
      have hd : data = [] := List.eq_nil_of_length_eq_zero (by omega)
      subst hd
      simp [scanFindAux, hS]
    | succ m =>
      simp only [scanFindAux]
      split_ifs
      · rfl
      · rw [ih m (data.drop SLOT) (by simp only [List.length_drop]; omega)
          (by simp only [List.length_drop]; omega)]
      · rfl

theorem scanFind_eq (u data : List Nat) :
    scanFind u data =
      if SLOT ≤ data.length then
        (if strncmpEq u (data.take SLOT) NAME_W then some 0
          else (scanFind u (data.drop SLOT)).map (· + 1))
      else none := by
  have hS : SLOT = 272 := rfl
  have key : scanFindAux (data.length + 1) u data = scanFind u data := by
    rw [scanFind]
    exact scanFindAux_congr u (data.length + 1) data.length data (by omega) le_rfl
  rw [← key, scanFindAux]
  split_ifs
  · rfl
  · rw [scanFind, scanFindAux_congr u data.length (data.drop SLOT).length (data.drop SLOT)
      (by simp only [List.length_drop]; omega) le_rfl]
  · rfl

theorem ledgerOpen_header (file : Option (List Nat)) (bs : List Nat)
    (h : ledgerOpen file = some bs) : bs.take 12 = headerBytes := by
  cases file with
  | none =>
    simp only [ledgerOpen, Option.some_inj] at h
    subst h
    rfl
  | some f =>
    simp only [ledgerOpen] at h
    by_cases hh : f.take 12 = headerBytes
    · rw [if_pos hh, Option.some_inj] at h
      subst h
      exact hh
    · rw [if_neg hh] at h
      cases h

theorem lookupLoop_elim (u : List Nat) :
    ∀ (t : List (List Nat × List Nat)) (acc : Option (List Nat)),
      lookupLoop u acc t =
        (t.reverse.find? (fun e => strcmpEq e.1 u)).elim acc (fun e => some e.2) := by
  intro t
  induction t with
  | nil => intro acc; rfl
  | cons e rest ih =>
    intro acc
    rw [lookupLoop, ih, List.reverse_cons, List.find?_append]
    cases hfr : rest.reverse.find? (fun e => strcmpEq e.1 u) with
    | some x => rfl
    | none =>
      simp only [Option.none_or]
      cases hp : strcmpEq e.1 u <;> simp [List.find?, hp]

theorem parseAcctArgs_unknown (a : List Nat) :
    ∀ (args : List (List Nat)) (p sp : Option (List Nat)), a ∈ args →
      strncmpEq a pathOptTag 5 = false → strncmpEq a statepathOptTag 10 = false →
      parseAcctArgs args p sp = none := by
  intro args
  induction args with
  | nil =>
    intro p sp h _ _
    exact absurd h (List.not_mem_nil a)
  | cons b rest ih =>
    intro p sp hmem h1 h2
    rcases List.mem_cons.mp hmem with rfl | hmem2
    · simp [parseAcctArgs, h1, h2]
    · simp only [parseAcctArgs]
      split_ifs
      · exact ih _ _ hmem2 h1 h2
      · exact ih _ _ hmem2 h1 h2
      · rfl

theorem parseCloseArgs_unknown (a : List Nat) :
    ∀ (args : List (List Nat)) (sp : Option (List Nat)), a ∈ args →
      strncmpEq a statepathOptTag 10 = false →
      parseCloseArgs args sp = none := by
  intro args
  induction args with
  | nil =>
    intro sp h _
    exact absurd h (List.not_mem_nil a)
  | cons b rest ih =>
    intro sp hmem h2
    rcases List.mem_cons.mp hmem with rfl | hmem2
    · simp [parseCloseArgs, h2]
    · simp only [parseCloseArgs]
      split_ifs
      · exact ih _ hmem2 h2
      · rfl

/-! ### The claims -/

/-- C2: for every session close, the accumulated usage written to the
ledger is used + elapsed when that sum is representable and the
USEC_INFINITY sentinel otherwise; equivalently the uint64 addition of
lines 495-498 saturates at USEC_INFINITY and never wraps modulo 2^64. -/
theorem accumulate_saturates (used elapsed : Nat) (h : used ≤ USEC_INFINITY) :
    accumulate used elapsed = min (used + elapsed) USEC_INFINITY := by
  rw [accumulate]
  have h64 : USEC_INFINITY = 18446744073709551615 := by norm_num [USEC_INFINITY]
  rw [h64] at h ⊢
  split_ifs with hlt <;> omega

theorem accumulate_saturates_witness :
    accumulate 3 4 = min (3 + 4) USEC_INFINITY :=
  accumulate_saturates 3 4 (by norm_num [USEC_INFINITY])

/-- C3: the user-table scan of the admission check walks the whole parsed
config table in file order without stopping at the first match, so the
limit text it applies is exactly that of the last occurrence of the
identity in file order. -/
theorem acct_limit_is_last_occurrence (u : List Nat)
    (t : List (List Nat × List Nat)) :
    lookupLoop u none t = lastOccurrenceLimit u t := by
  rw [lastOccurrenceLimit, lookupLoop_elim]
  cases t.reverse.find? (fun e => strcmpEq e.1 u) <;> rfl

/-- C6 counterexample: an argument list with the unknown option "b" makes
the admission check return PAM_PERM_DENIED, which is not the System error
outcome the claim asserts for both entry points. -/
theorem unknown_option_cex :
    pam_sm_acct_mgmt ⟨fun _ => none, fun _ => none, false⟩
        ⟨[[98]], none, none, none, 0⟩ = some ⟨Rc.permDenied, none, none⟩ ∧
      Rc.permDenied ≠ Rc.systemErr := by
  decide

/-- C6 amended: an argument list containing an option other than path= or
statepath= makes the admission check deny with PAM_PERM_DENIED; the
session close entry point, when a remaining-time value was published for
the session, returns PAM_SYSTEM_ERR for an argument list containing an
option other than statepath=. -/
theorem unknown_option_return_codes :
    (∀ (env : AcctEnv) (inp : AcctInput) (a : List Nat), a ∈ inp.args →
        strncmpEq a pathOptTag 5 = false → strncmpEq a statepathOptTag 10 = false →
        pam_sm_acct_mgmt env inp = some ⟨Rc.permDenied, none, inp.file⟩) ∧
    (∀ (inp : CloseInput) (v a : List Nat), inp.published = some v →
        a ∈ inp.args → strncmpEq a statepathOptTag 10 = false →
        pam_sm_close_session inp = ⟨Rc.systemErr, inp.file⟩) := by
  constructor
  · intro env inp a hmem h1 h2
    simp only [pam_sm_acct_mgmt, parseAcctArgs_unknown a inp.args none none hmem h1 h2]
  · intro inp v a hpub hmem h
    simp only [pam_sm_close_session, hpub,
      parseCloseArgs_unknown a inp.args none hmem h]

theorem unknown_option_return_codes_witness :
    pam_sm_acct_mgmt ⟨fun _ => none, fun _ => none, false⟩
        ⟨[[98]], some [116], none, none, 0⟩ = some ⟨Rc.permDenied, none, none⟩ ∧
      pam_sm_close_session ⟨some [49], none, 0, [[98]], none, none, 0⟩ =
        ⟨Rc.systemErr, none⟩ :=
  ⟨unknown_option_return_codes.1 _ _ [98] (by decide) (by decide) (by decide),
    unknown_option_return_codes.2 _ [49] [98] rfl (by decide) (by decide)⟩

/-- C8: a session close invocation for which the admission check published
no remaining-time value returns PAM_SUCCESS immediately; the ledger file
is left exactly as it was, in particular an absent file is not created. -/
theorem close_session_unpublished_noop (inp : CloseInput)
    (h : inp.published = none) :
    pam_sm_close_session inp = ⟨Rc.success, inp.file⟩ := by
  simp only [pam_sm_close_session, h]

theorem close_session_unpublished_noop_witness :
    pam_sm_close_session ⟨none, none, 0, [], none, none, 0⟩ = ⟨Rc.success, none⟩ :=
  close_session_unpublished_noop _ rfl

/-- C9: an absent config file, and a config file that parses with zero
limit entries, both make the admission check return PAM_IGNORE with
nothing published and the ledger untouched; PAM_IGNORE is distinct from
the denial and error outcomes used for malformed configuration. -/
theorem acct_ignore_outcomes (env : AcctEnv) (inp : AcctInput)
    (uname : List Nat) (ps : Option (List Nat) × Option (List Nat))
    (hargs : parseAcctArgs inp.args none none = some ps)
    (hu : inp.username = some uname)
    (hcfg : inp.config = none ∨
      ∃ lines, inp.config = some lines ∧ parseLines lines [] = some ConfigResult.ignore) :
    pam_sm_acct_mgmt env inp = some ⟨Rc.ignore, none, inp.file⟩ ∧
      Rc.ignore ≠ Rc.permDenied ∧ Rc.ignore ≠ Rc.systemErr := by
  refine ⟨?_, by decide, by decide⟩
  have hpc : parse_config_file inp.config = some ConfigResult.ignore := by
    rcases hcfg with h | ⟨lines, h, hp⟩
    · rw [h]
      rfl
    · rw [h]
      exact hp
  simp only [pam_sm_acct_mgmt, hargs, hu, hpc]

theorem acct_ignore_outcomes_witness :
    pam_sm_acct_mgmt ⟨fun _ => none, fun _ => none, false⟩
        ⟨[], some [116, 101, 100], some [], none, 0⟩ =
      some ⟨Rc.ignore, none, none⟩ ∧
      Rc.ignore ≠ Rc.permDenied ∧ Rc.ignore ≠ Rc.systemErr :=
  acct_ignore_outcomes _ _ [116, 101, 100] (none, none) rfl rfl
    (Or.inr ⟨[], rfl, rfl⟩)

/-- C10 (code bug): on a line whose content after removing the newline and
any comment is empty or all whitespace, such as the minimal line
consisting of one newline byte, the trailing-whitespace loop of
parse_config_line decrements length to 0 and then evaluates
line[length - 1] with the index computed in size_t arithmetic, an
out-of-bounds read at index 2^64 - 1; the embedding signals that access
as `none` (undefined behavior) instead of the in-bounds skip with
PAM_SUCCESS that the claim asserts.  `stripWSRev [] = none` is the
underflow itself. -/
theorem blank_line_strip_oob :
    parse_config_line [10] = none ∧ parse_config_line [32, 10] = none ∧
      parse_config_line [35, 10] = none ∧ stripWSRev [] = none := by
  decide

/-- C1: in an admission check where a limit is configured and parses and
the ledger read succeeds (with used the scanned usage), limit <= used
denies with PAM_PERM_DENIED, publishing nothing and leaving the ledger as
the read left it; otherwise the check publishes the formatted text of
remaining = limit - used under the per-session key and admits with
PAM_SUCCESS. -/
theorem acct_admission_decision (env : AcctEnv) (inp : AcctInput)
    (uname limtxt txt : List Nat) (ps : Option (List Nat) × Option (List Nat))
    (t : List (List Nat × List Nat)) (timeval : Nat) (bs : List Nat)
    (hargs : parseAcctArgs inp.args none none = some ps)
    (hu : inp.username = some uname)
    (hcfg : parse_config_file inp.config = some (ConfigResult.table t))
    (hlim : lookupLoop uname none t = some limtxt)
    (hparse : env.parseTime limtxt = some timeval)
    (hopen : ledgerOpen inp.file = some bs)
    (hfmt : env.formatTimespan (timeval - scanGet inp.today uname (bs.drop 12)) = some txt)
    (hset : env.setDataOk = true) :
    (timeval ≤ scanGet inp.today uname (bs.drop 12) →
      pam_sm_acct_mgmt env inp = some ⟨Rc.permDenied, none, some bs⟩) ∧
    (scanGet inp.today uname (bs.drop 12) < timeval →
      pam_sm_acct_mgmt env inp = some ⟨Rc.success, some txt, some bs⟩) := by
  have hget : get_used_time_for_user inp.today uname inp.file =
      some (scanGet inp.today uname (bs.drop 12), bs) := by
    rw [get_used_time_for_user, hopen]
    rfl
  constructor
  · intro hle
    simp only [pam_sm_acct_mgmt, hargs, hu, hcfg, hlim, hparse, hget, if_pos hle]
  · intro hlt
    simp only [pam_sm_acct_mgmt, hargs, hu, hcfg, hlim, hparse, hget,
      if_neg (not_le.mpr hlt), hfmt, hset, if_true]

theorem acct_admission_decision_witness :
    pam_sm_acct_mgmt ⟨fun _ => some 5, fun n => some [n], true⟩
        ⟨[], some [116, 101, 100], some [[116, 101, 100, 35, 53, 104, 10]], none, 0⟩ =
      some ⟨Rc.success, some [5], some headerBytes⟩ :=
  (acct_admission_decision ⟨fun _ => some 5, fun n => some [n], true⟩
      ⟨[], some [116, 101, 100], some [[116, 101, 100, 35, 53, 104, 10]], none, 0⟩
      [116, 101, 100] [53, 104] [5] (none, none)
      [([116, 101, 100], [53, 104])] 5 headerBytes
      rfl rfl (by decide) (by decide) rfl rfl (by decide) rfl).2 (by decide)

/-- C7: the day marker persisted in a ledger record is time_today(), which
depends only on the calendar date (tm_year, tm_yday) of the local-time
decomposition of now, with hours, minutes and seconds zeroed and the
conversion performed by the timezone-independent universal-time formula of
timegm; any localtime function (any later timezone setting) producing the
same calendar date yields the same marker, and the record day field decodes
back to exactly that marker. -/
theorem time_today_universal (L : Int → Option Tm) (now : Int) (tm : Tm)
    (u : List Nat) (used : Nat) (hL : L now = some tm)
    (hlo : -2 ^ 63 ≤ time_today L now) (hhi : time_today L now < 2 ^ 63) :
    time_today L now
        = tm.yday * 86400 + (tm.year - 70) * 31536000
          + ((tm.year - 69).tdiv 4) * 86400 - ((tm.year - 1).tdiv 100) * 86400
          + ((tm.year + 299).tdiv 400) * 86400
      ∧ (∀ (L2 : Int → Option Tm) (now2 : Int) (tm2 : Tm), L2 now2 = some tm2 →
          tm2.year = tm.year → tm2.yday = tm.yday →
          time_today L2 now2 = time_today L now)
      ∧ decodeI64 ((mkRecord u (time_today L now) used).drop NAME_W)
          = time_today L now := by
  have hval : ∀ (L3 : Int → Option Tm) (now3 : Int) (tm3 : Tm), L3 now3 = some tm3 →
      time_today L3 now3
        = tm3.yday * 86400 + (tm3.year - 70) * 31536000
          + ((tm3.year - 69).tdiv 4) * 86400 - ((tm3.year - 1).tdiv 100) * 86400
          + ((tm3.year + 299).tdiv 400) * 86400 := by
    intro L3 now3 tm3 h3
    rw [time_today, h3]
    simp only [timegm]
    ring
  refine ⟨hval L now tm hL, ?_, ?_⟩
  · intro L2 now2 tm2 h2 hy hd
    rw [hval L2 now2 tm2 h2, hval L now tm hL, hy, hd]
  · have hrec : mkRecord u (time_today L now) used
        = nameField u ++ (encodeI64 (time_today L now) ++ encodeLE 8 used) := by
      rw [mkRecord, List.append_assoc]
    rw [hrec, show NAME_W = (nameField u).length from (nameField_length u).symm,
      List.drop_left]
    exact decodeI64_encodeI64 _ hlo hhi _

theorem time_today_universal_witness :
    time_today (fun _ => some ⟨30, 15, 12, 15, 5, 123, 165⟩) 99
        = 165 * 86400 + (123 - 70) * 31536000 + (((123 : Int) - 69).tdiv 4) * 86400
          - (((123 : Int) - 1).tdiv 100) * 86400 + (((123 : Int) + 299).tdiv 400) * 86400
      ∧ decodeI64 ((mkRecord [97]
            (time_today (fun _ => some ⟨30, 15, 12, 15, 5, 123, 165⟩) 99) 7).drop NAME_W)
          = time_today (fun _ => some ⟨30, 15, 12, 15, 5, 123, 165⟩) 99 := by
  have h := time_today_universal (fun _ => some ⟨30, 15, 12, 15, 5, 123, 165⟩) 99
    ⟨30, 15, 12, 15, 5, 123, 165⟩ [97] 7 rfl (by decide) (by decide)
  exact ⟨h.1, h.2.2⟩

theorem scanGet_stale (today : Int) (u : List Nat) :
    ∀ (k : Nat) (d : List Nat), scanFind u d = some k →
      decodeI64 (((d.drop (k * SLOT)).take SLOT).drop NAME_W) < today →
      scanGet today u d = 0 := by
  intro k
  induction k with
  | zero =>
    intro d hk hst
    rw [scanFind_eq] at hk
    by_cases hs : SLOT ≤ d.length
    · rw [if_pos hs] at hk
      by_cases hm : strncmpEq u (d.take SLOT) NAME_W = true
      · rw [Nat.zero_mul, List.drop_zero] at hst
        rw [scanGet_eq, if_pos hs, if_pos hm, if_pos hst]
      · rw [if_neg hm] at hk
        rcases Option.map_eq_some'.mp hk with ⟨j, _, hj2⟩
        exact absurd hj2 (by omega)
    · rw [if_neg hs] at hk
      cases hk
  | succ n ih =>
    intro d hk hst
    rw [scanFind_eq] at hk
    by_cases hs : SLOT ≤ d.length
    · rw [if_pos hs] at hk
      by_cases hm : strncmpEq u (d.take SLOT) NAME_W = true
      · rw [if_pos hm] at hk
        exact absurd hk (by simp)
      · rw [if_neg hm] at hk
        rcases Option.map_eq_some'.mp hk with ⟨j, hj1, hj2⟩
        have hj : n = j := by omega
        subst hj
        rw [scanGet_eq, if_pos hs, if_neg hm]
        apply ih (d.drop SLOT) hj1
        rw [List.drop_drop, show SLOT + n * SLOT = (n + 1) * SLOT from by
          rw [Nat.succ_mul]; omega]
        exact hst
    · rw [if_neg hs] at hk
      cases hk

/-- C4: when the first ledger record slot whose fixed-width username field
matches u carries a day marker strictly before the current day boundary,
the read returns zero used microseconds regardless of the stored counter,
and the file contents returned by the call are exactly the input. -/
theorem stale_record_reads_zero (today : Int) (u bs : List Nat) (k : Nat)
    (hdr : bs.take 12 = headerBytes)
    (hk : scanFind u (bs.drop 12) = some k)
    (hstale : decodeI64 ((((bs.drop 12).drop (k * SLOT)).take SLOT).drop NAME_W)
      < today) :
    get_used_time_for_user today u (some bs) = some (0, bs) := by
  simp only [get_used_time_for_user, ledgerOpen, if_pos hdr, Option.map_some']
  rw [scanGet_stale today u k (bs.drop 12) hk hstale]

set_option maxRecDepth 200000 in
theorem stale_record_reads_zero_witness :
    get_used_time_for_user 1 [97] (some (headerBytes ++ mkRecord [97] 0 7)) =
      some (0, headerBytes ++ mkRecord [97] 0 7) :=
  stale_record_reads_zero 1 [97] (headerBytes ++ mkRecord [97] 0 7) 0
    (by decide) (by decide) (by decide)

theorem scanGet_mkRecord (today : Int) (u : List Nat) (used : Nat) (suf : List Nat)
    (hnz : ∀ b ∈ u, b ≠ 0) (hused : used < 2 ^ 64)
    (hlo : -2 ^ 63 ≤ today) (hhi : today < 2 ^ 63) :
    scanGet today u (mkRecord u today used ++ suf) = used := by
  have hlen : (mkRecord u today used).length = SLOT := mkRecord_length u today used
  have hrec : mkRecord u today used
      = nameField u ++ (encodeI64 today ++ encodeLE 8 used) := by
    rw [mkRecord, List.append_assoc]
  rw [scanGet_eq]
  have hsl : SLOT ≤ (mkRecord u today used ++ suf).length := by
    simp only [List.length_append, hlen]
    omega
  rw [if_pos hsl]
  have htake : (mkRecord u today used ++ suf).take SLOT = mkRecord u today used := by
    rw [show SLOT = (mkRecord u today used).length from hlen.symm, List.take_left]
  rw [htake]
  have hm : strncmpEq u (mkRecord u today used) NAME_W = true := by
    rw [hrec]
    exact strncmpEq_nameField u _ hnz
  rw [if_pos hm]
  have hdropA : (mkRecord u today used).drop NAME_W
      = encodeI64 today ++ encodeLE 8 used := by
    rw [hrec, show NAME_W = (nameField u).length from (nameField_length u).symm,
      List.drop_left]
  have hlen2 : (nameField u ++ encodeI64 today).length = NAME_W + 8 := by
    simp [List.length_append, nameField_length, encodeI64, encodeLE_length]
  have hdropB : (mkRecord u today used).drop (NAME_W + 8) = encodeLE 8 used := by
    rw [mkRecord, show NAME_W + 8 = (nameField u ++ encodeI64 today).length
      from hlen2.symm, List.drop_left]
  rw [hdropA, decodeI64_encodeI64 today hlo hhi (encodeLE 8 used),
    if_neg (lt_irrefl today), hdropB]
  have hdec := decodeU64_encodeLE used hused []
  rwa [List.append_nil] at hdec

theorem scanGet_setBytes_append (today : Int) (u : List Nat) (used : Nat)
    (hnz : ∀ b ∈ u, b ≠ 0) (hused : used < 2 ^ 64)
    (hlo : -2 ^ 63 ≤ today) (hhi : today < 2 ^ 63) :
    ∀ (n : Nat) (d : List Nat), d.length ≤ n → SLOT ∣ d.length →
      scanFind u d = none →
      scanGet today u (d ++ mkRecord u today used) = used := by
  have hS : SLOT = 272 := rfl
  have base : scanGet today u (mkRecord u today used) = used := by
    have h := scanGet_mkRecord today u used [] hnz hused hlo hhi
    rwa [List.append_nil] at h
  intro n
  induction n with
  | zero =>
    intro d h1 _ _
    have hd : d = [] := List.eq_nil_of_length_eq_zero (by omega)
    subst hd
    rw [List.nil_append]
    exact base
  | succ m ih =>
    intro d h1 hdvd hfind
    by_cases hs : SLOT ≤ d.length
    · rw [scanFind_eq, if_pos hs] at hfind
      by_cases hm2 : strncmpEq u (d.take SLOT) NAME_W = true
      · rw [if_pos hm2] at hfind
        cases hfind
      · rw [if_neg hm2] at hfind
        have hfind2 : scanFind u (d.drop SLOT) = none := by
          cases hx : scanFind u (d.drop SLOT) with
          | none => rfl
          | some j =>
            rw [hx] at hfind
            simp at hfind
        have hsl : SLOT ≤ (d ++ mkRecord u today used).length := by
          simp only [List.length_append]
          omega
        rw [scanGet_eq, if_pos hsl, List.take_append_of_le_length hs, if_neg hm2,
          List.drop_append_of_le_length hs]
        exact ih (d.drop SLOT) (by simp only [List.length_drop]; omega)
          (by simpa only [List.length_drop] using Nat.dvd_sub' hdvd dvd_rfl) hfind2
    · have h0 : d.length = 0 := Nat.eq_zero_of_dvd_of_lt hdvd (by omega)
      have hd : d = [] := List.eq_nil_of_length_eq_zero h0
      subst hd
      rw [List.nil_append]
      exact base

theorem scanGet_setBytes_overwrite (today : Int) (u : List Nat) (used : Nat)
    (hnz : ∀ b ∈ u, b ≠ 0) (hused : used < 2 ^ 64)
    (hlo : -2 ^ 63 ≤ today) (hhi : today < 2 ^ 63) :
    ∀ (k : Nat) (d : List Nat), scanFind u d = some k →
      scanGet today u
        (d.take (k * SLOT) ++ mkRecord u today used ++ d.drop ((k + 1) * SLOT))
        = used := by
  have hS : SLOT = 272 := rfl
  intro k
  induction k with
  | zero =>
    intro d _
    rw [Nat.zero_mul, List.take_zero, List.nil_append, Nat.one_mul]
    exact scanGet_mkRecord today u used (d.drop SLOT) hnz hused hlo hhi
  | succ n ih =>
    intro d hk
    rw [scanFind_eq] at hk
    by_cases hs : SLOT ≤ d.length
    · rw [if_pos hs] at hk
      by_cases hm2 : strncmpEq u (d.take SLOT) NAME_W = true
      · rw [if_pos hm2] at hk
        exact absurd hk (by simp)
      · rw [if_neg hm2] at hk
        rcases Option.map_eq_some'.mp hk with ⟨j, hj1, hj2⟩
        have hj : n = j := by omega
        subst hj
        have e1 : (n + 1) * SLOT = n * SLOT + SLOT := Nat.succ_mul n SLOT
        have e2 : (n + 1 + 1) * SLOT = (n + 1) * SLOT + SLOT := Nat.succ_mul (n + 1) SLOT
        have hA : SLOT ≤ (d.take ((n + 1) * SLOT)).length := by
          simp only [List.length_take]
          omega
        have hAB : SLOT ≤ (d.take ((n + 1) * SLOT) ++ mkRecord u today used).length := by
          simp only [List.length_append]
          omega
        have hTot : SLOT ≤ ((d.take ((n + 1) * SLOT) ++ mkRecord u today used)
            ++ d.drop ((n + 1 + 1) * SLOT)).length := by
          simp only [List.length_append]
          omega
        rw [scanGet_eq, if_pos hTot, List.take_append_of_le_length hAB,
          List.take_append_of_le_length hA, List.take_take,
          show min SLOT ((n + 1) * SLOT) = SLOT from by omega, if_neg hm2,
          List.drop_append_of_le_length hAB, List.drop_append_of_le_length hA,
          List.drop_take,
          show (n + 1) * SLOT - SLOT = n * SLOT from by omega,
          show (n + 1 + 1) * SLOT = SLOT + (n + 1) * SLOT from by omega,
          ← List.drop_drop]
        exact ih (d.drop SLOT) hj1
    · rw [if_neg hs] at hk
      cases hk

set_option maxRecDepth 200000 in
/-- C5 counterexample: a ledger whose record area is one stray byte (a
truncated partial slot).  set appends the new record after that byte, at
end of file, so the record area is misaligned and the immediately
following get scans across the boundary, finds no matching slot, and
returns 0 instead of the value 5 just written. -/
theorem set_then_get_partial_slot_cex :
    set_used_time_for_user 0 [97] 5 (some (headerBytes ++ [1]))
        = some ((headerBytes ++ [1]) ++ mkRecord [97] 0 5) ∧
      get_used_time_for_user 0 [97] (some ((headerBytes ++ [1]) ++ mkRecord [97] 0 5))
        = some (0, (headerBytes ++ [1]) ++ mkRecord [97] 0 5) ∧ (0 : Nat) ≠ 5 := by
  decide

/-- C5 amended: on a ledger whose record area is a whole number of record
slots (no truncated trailing partial slot), set(u, U) followed by get(u)
with the same day boundary returns exactly U, both when u already had a
record slot (overwritten in place) and when set appended a new one; the
side conditions state that U is a representable usec_t value, the day
marker a representable time_t, and the username a NUL-free C string. -/
theorem set_then_get_same_day (today : Int) (u : List Nat) (used : Nat)
    (file : Option (List Nat)) (bs bs2 : List Nat)
    (hopen : ledgerOpen file = some bs)
    (haligned : SLOT ∣ (bs.drop 12).length)
    (hnz : ∀ b ∈ u, b ≠ 0) (hused : used < 2 ^ 64)
    (hlo : -2 ^ 63 ≤ today) (hhi : today < 2 ^ 63)
    (hset : set_used_time_for_user today u used file = some bs2) :
    get_used_time_for_user today u (some bs2) = some (used, bs2) := by
  rw [set_used_time_for_user, hopen, Option.map_some'] at hset
  have hbs2 := Option.some_inj.mp hset
  subst hbs2
  have hdr : bs.take 12 = headerBytes := ledgerOpen_header file bs hopen
  have hlen12 : (bs.take 12).length = 12 := by
    rw [hdr]
    rfl
  have hdr2 : (bs.take 12 ++ setBytes today u used (bs.drop 12)).take 12
      = headerBytes := by
    rw [List.take_append_of_le_length (le_of_eq hlen12.symm), List.take_take]
    simpa using hdr
  have hdrop2 : (bs.take 12 ++ setBytes today u used (bs.drop 12)).drop 12
      = setBytes today u used (bs.drop 12) := by
    rw [List.drop_append_of_le_length (le_of_eq hlen12.symm),
      List.drop_eq_nil_of_le (le_of_eq hlen12), List.nil_append]
  rw [get_used_time_for_user, ledgerOpen, if_pos hdr2, Option.map_some', hdrop2]
  have hmain : scanGet today u (setBytes today u used (bs.drop 12)) = used := by
    rw [setBytes]
    cases hf : scanFind u (bs.drop 12) with
    | none =>
      exact scanGet_setBytes_append today u used hnz hused hlo hhi
        (bs.drop 12).length (bs.drop 12) le_rfl haligned hf
    | some k =>
      exact scanGet_setBytes_overwrite today u used hnz hused hlo hhi
        k (bs.drop 12) hf
  rw [hmain]

set_option maxRecDepth 200000 in
theorem set_then_get_same_day_witness :
    get_used_time_for_user 0 [97] (some (headerBytes ++ mkRecord [97] 0 5))
        = some (5, headerBytes ++ mkRecord [97] 0 5) :=
  set_then_get_same_day 0 [97] 5 none headerBytes (headerBytes ++ mkRecord [97] 0 5)
    rfl (dvd_zero SLOT) (by decide) (by decide) (by decide) (by decide) (by decide)

end PamSessionTimelimit
